import Mathlib

/-!
Verification of the `structinator` procedural-macro crate (src/lib.rs).

The crate consists of one attribute macro, `iter_convertable`, which takes a
type argument and a struct definition and emits (a) the struct definition
unchanged and (b) an `impl SpecifyCreatableStruct` block whose `create_struct`
function fills the struct from an iterator of `NamedField` pairs through a
`HashMap<String, InnerIteratorType>`.

The development has two layers, both shallow embeddings of src/lib.rs:

* the generation-time layer (`iter_convertable`, `field_maker`): token
  streams are abstracted to their syn parse results (`Item`, `ItemStruct`,
  `StructFields`), and the emitted token stream to its semantic content
  (`GenResult`, `ImplBlock`, `FieldValue`);

* the run-time layer (`create_struct`): the algorithm of the generated
  `create_struct` function, lines 109-124 of src/lib.rs, over an iterator
  modelled as a list, a `HashMap` modelled as an association list with
  overwrite-on-insert, and `TryFrom` dispatch modelled as one conversion
  function per field (`Field.tryFrom`).  A Rust panic is modelled as the
  `CreateResult.panicked` constructor, carrying the panic message, the
  number of `next()` calls made, and the items left in the iterator.
-/

set_option autoImplicit false

namespace Structinator

/-- The `Err` payload returned at line 116 of src/lib.rs when the iterator is
exhausted before the struct is filled. -/
def insufficientDataMsg : String :=
  "The given iterator should contain enough values to fill the implementing structure"

/-- The `expect` message at line 100 of src/lib.rs on `value_storage.remove`,
raised as a panic when a field name is absent from the store. -/
def missingFieldMsg : String :=
  "The iterator passed to the create_struct function should yield values for every field in the base struct"

/-- The `expect` message at line 100 of src/lib.rs on `try_from`, raised as a
panic when the conversion to the field type fails. -/
def conversionFailedMsg : String :=
  "The variant of InnerIteratorType passed to TryFrom should always succeed in conversion, but it failed unexpectedly"

/-- The panic message at line 82 of src/lib.rs when the attribute argument does
not parse as a type. -/
def typeArgMsg : String :=
  "Pass in the name of the enum that contains the values to be assigned to this structure."

/-- The `expect` message at line 84 of src/lib.rs when the annotated item is
not a struct definition. -/
def attachMsg : String :=
  "This attribute should only be attached to a struct definition"

/-- The panic message at line 92 of src/lib.rs when the struct does not have
named fields. -/
def namedFieldsMsg : String :=
  "This library can only convert from iterator to structs with named fields"

/-! ## Run-time layer: the generated `create_struct` -/

/-- `structinator_traits::NamedField`: one item yielded by the run-time
iterator, a field name paired with a value of the iterator's inner type. -/
structure NamedField (V : Type) where
  name : String
  wrapped_value : V
deriving DecidableEq, Repr

/-- One field of the annotated struct as the generated code sees it: its name
and the conversion `<FieldType as TryFrom<InnerIteratorType>>::try_from`,
modelled as a function into `Option` (`none` = the conversion fails). -/
structure Field (V W : Type) where
  name : String
  tryFrom : V → Option W

/-- The `HashMap<String, InnerIteratorType>` called `value_storage` at line 110
of src/lib.rs, modelled as an association list whose keys stay distinct
because insertion overwrites. -/
abbrev ValueStorage (V : Type) := List (String × V)

/-- `HashMap::insert`: any previous entry under the key is overwritten. -/
def insertStore {V : Type} (s : ValueStorage V) (nm : String) (v : V) : ValueStorage V :=
  (s.filter (fun e => e.1 != nm)) ++ [(nm, v)]

/-- `HashMap::remove`: returns the stored value for the key, if present, and
the store without that entry. -/
def removeStore {V : Type} (s : ValueStorage V) (nm : String) : Option V × ValueStorage V :=
  match s.find? (fun e => e.1 == nm) with
  | none => (none, s)
  | some e => (some e.2, s.eraseP (fun e => e.1 == nm))

/-- Folding `insertStore` over a list of pairs, in order: the store produced
by the fill loop of `create_struct`. -/
def insertAll {V : Type} (s : ValueStorage V) (pairs : List (NamedField V)) : ValueStorage V :=
  pairs.foldl (fun acc p => insertStore acc p.name p.wrapped_value) s

/-- The `while looper < #fields_length` loop at lines 111-120 of src/lib.rs.
Arguments: remaining iterations, the iterator (as the list of items it will
still yield), the store, and the count of `next()` calls made so far.
Returns `none` in the first component when `seed_iterator.next()` returned
`None` (the `return Err` at line 116), otherwise the filled store; the other
components are the total `next()` count and the items left unpulled. -/
def fillLoop {V : Type} :
    Nat → List (NamedField V) → ValueStorage V → Nat →
    Option (ValueStorage V) × Nat × List (NamedField V)
  | 0, it, store, calls => (some store, calls, it)
  | _ + 1, [], _, calls => (none, calls + 1, [])
  | n + 1, p :: rest, store, calls =>
      fillLoop n rest (insertStore store p.name p.wrapped_value) (calls + 1)

/-- The field expressions of the struct literal at lines 121-123 of
src/lib.rs, generated by `field_maker` (line 100): for each field in declared
order, `value_storage.remove(name)` (panic `missingFieldMsg` on `None`), then
`try_from` (panic `conversionFailedMsg` on failure).  `Except.error` carries
the panic message of the first field expression that panics. -/
def buildFields {V W : Type} :
    List (Field V W) → ValueStorage V → Except String (List (String × W))
  | [], _ => .ok []
  | f :: rest, store =>
    match removeStore store f.name with
    | (none, _) => .error missingFieldMsg
    | (some v, store') =>
      match f.tryFrom v with
      | none => .error conversionFailedMsg
      | some w =>
        match buildFields rest store' with
        | .ok ws => .ok ((f.name, w) :: ws)
        | .error m => .error m

/-- Outcome of one call of the generated `create_struct`.  `ok` carries the
constructed struct as its list of (field name, converted value) assignments in
declared field order; `err` the `Err` payload; `panicked` the panic message.
All carry the number of `next()` calls made and the items left in the
iterator. -/
inductive CreateResult (V W : Type) where
  | ok (fields : List (String × W)) (calls : Nat) (rest : List (NamedField V))
  | err (msg : String) (calls : Nat) (rest : List (NamedField V))
  | panicked (msg : String) (calls : Nat) (rest : List (NamedField V))
deriving DecidableEq, Repr

/-- Whether the outcome is `ok`, i.e. a struct was constructed. -/
def isOk {V W : Type} : CreateResult V W → Bool
  | .ok _ _ _ => true
  | _ => false

/-- The number of `next()` calls the outcome records. -/
def callsOf {V W : Type} : CreateResult V W → Nat
  | .ok _ c _ => c
  | .err _ c _ => c
  | .panicked _ c _ => c

/-- The items left in the iterator after the call. -/
def restOf {V W : Type} : CreateResult V W → List (NamedField V)
  | .ok _ _ r => r
  | .err _ _ r => r
  | .panicked _ _ r => r

/-- The generated `fn create_struct` (lines 109-124 of src/lib.rs): fill the
store with `N = flds.length` pulls from the iterator, returning
`Err(insufficientDataMsg)` if the iterator runs out, then evaluate the struct
literal field by field. -/
def create_struct {V W : Type} (flds : List (Field V W)) (it : List (NamedField V)) :
    CreateResult V W :=
  match fillLoop flds.length it [] 0 with
  | (none, calls, rest) => .err insufficientDataMsg calls rest
  | (some store, calls, rest) =>
    match buildFields flds store with
    | .ok ws => .ok ws calls rest
    | .error m => .panicked m calls rest

/-! ## Generation-time layer: `iter_convertable` -/

/-- One named field of the parsed struct: `syn::Field` restricted to what the
macro reads, the identifier and the type (types abstracted to their text). -/
structure SynField where
  ident : String
  ty : String
deriving DecidableEq, Repr

/-- `syn::Fields`: named, unnamed (tuple struct) or unit. -/
inductive StructFields where
  | named (fields : List SynField)
  | unnamed (tys : List String)
  | unit
deriving DecidableEq, Repr

/-- `syn::ItemStruct` restricted to what the macro reads: the identifier and
the fields. -/
structure ItemStruct where
  ident : String
  fields : StructFields
deriving DecidableEq, Repr

/-- The parse result of the annotated item.  `syn::parse::<syn::ItemStruct>`
succeeds exactly on the `structItem` case; enums, functions and any other
item shape make it fail, which the `expect` at line 84 turns into a panic. -/
inductive Item where
  | structItem (s : ItemStruct)
  | enumItem (ident : String)
  | fnItem (ident : String)
  | otherItem
deriving DecidableEq, Repr

/-- An `Item` that the macro accepts: a struct definition with named fields. -/
def isNamedFieldStruct : Item → Bool
  | .structItem s =>
    match s.fields with
    | .named _ => true
    | _ => false
  | _ => false

/-- The semantic content of one field expression produced by `field_maker`
(lines 95-102 of src/lib.rs):
`name: <fieldType as TryFrom<sourceType>>::try_from(value_storage.remove(lookupKey).expect(missingMsg)).expect(convertMsg)`. -/
structure FieldValue where
  fieldName : String
  fieldType : String
  sourceType : String
  lookupKey : String
  missingMsg : String
  convertMsg : String
deriving DecidableEq, Repr

/-- The closure `field_maker` at lines 95-102 of src/lib.rs: builds the field
expression for one field; the lookup key is the stringification of the field
identifier. -/
def field_maker (inner_iterator_type : String) (f : SynField) : FieldValue :=
  { fieldName := f.ident
    fieldType := f.ty
    sourceType := inner_iterator_type
    lookupKey := f.ident
    missingMsg := missingFieldMsg
    convertMsg := conversionFailedMsg }

/-- The associated `type Error` of the generated impl.  The source sets it to
the static string-slice type (line 108 of src/lib.rs); the type is abstracted
to this tag. -/
inductive GenErrorType where
  | staticStr
deriving DecidableEq, Repr

/-- The semantic content of the generated `impl SpecifyCreatableStruct` block
(lines 106-125 of src/lib.rs). -/
structure ImplBlock where
  traitName : String
  structName : String
  innerIteratorType : String
  errorType : GenErrorType
  errMsg : String
  fieldsLength : Nat
  fieldValues : List FieldValue
deriving DecidableEq, Repr

/-- Result of running the macro: a generation-time panic, or the emitted code,
which is the original struct definition followed by exactly one impl block. -/
inductive GenResult where
  | panicked (msg : String)
  | emitted (original : ItemStruct) (implBlock : ImplBlock)
deriving DecidableEq, Repr

/-- `iter_convertable` (lines 78-127 of src/lib.rs).  The first argument is
the parse result of the attribute argument as a `syn::Type` (`none` = parse
failure), the second the parse result of the annotated item. -/
def iter_convertable (user_enum : Option String) (user_structure : Item) : GenResult :=
  match user_enum with
  | none => .panicked typeArgMsg
  | some inner_iterator_type =>
    match user_structure with
    | .structItem s =>
      match s.fields with
      | .named flds =>
        .emitted s
          { traitName := "SpecifyCreatableStruct"
            structName := s.ident
            innerIteratorType := inner_iterator_type
            errorType := .staticStr
            errMsg := insufficientDataMsg
            fieldsLength := flds.length
            fieldValues := flds.map (field_maker inner_iterator_type) }
      | _ => .panicked namedFieldsMsg
    | _ => .panicked attachMsg

/-- The record built by direct assignment from a list of name/value pairs
keyed by field name, following the words of the spec: for each field in
declared order, take the pair carrying that field's name and convert its
value to the field's type; defined only when every field finds a pair and
every conversion succeeds. -/
def specDirectAssign {V W : Type} (flds : List (Field V W)) (pairs : List (NamedField V)) :
    Option (List (String × W)) :=
  match flds with
  | [] => some []
  | f :: rest =>
    match pairs.find? (fun p => p.name == f.name) with
    | none => none
    | some p =>
      match f.tryFrom p.wrapped_value with
      | none => none
      | some w => (specDirectAssign rest pairs).map (fun ws => (f.name, w) :: ws)

/-! ## Lemmas about the store and the fill loop -/

@[simp]
theorem insertAll_nil {V : Type} (s : ValueStorage V) : insertAll s [] = s := rfl

@[simp]
theorem insertAll_cons {V : Type} (s : ValueStorage V) (p : NamedField V)
    (pairs : List (NamedField V)) :
    insertAll s (p :: pairs) = insertAll (insertStore s p.name p.wrapped_value) pairs := rfl

theorem find?_filter_of_imp {α : Type} (q r : α → Bool) (h : ∀ x, q x = true → r x = true) :
    ∀ l : List α, (l.filter r).find? q = l.find? q := by
  intro l
  induction l with
  | nil => rfl
  | cons a l ih =>
    cases hr : r a with
    | true =>
      cases hq : q a with
      | true => simp [List.filter_cons, hr, List.find?_cons_of_pos, hq]
      | false => simp [List.filter_cons, hr, List.find?_cons_of_neg, hq, ih]
    | false =>
      have hq : q a = false := by
        cases hq : q a with
        | true => exact absurd (h a hq) (by simp [hr])
        | false => rfl
      simp [List.filter_cons, hr, List.find?_cons_of_neg, hq, ih]

theorem find?_eraseP_of_excl {α : Type} (p q : α → Bool) (h : ∀ x, p x = true → q x = false) :
    ∀ l : List α, (l.eraseP p).find? q = l.find? q := by
  intro l
  induction l with
  | nil => rfl
  | cons a l ih =>
    cases hp : p a with
    | true =>
      have hq : q a = false := h a hp
      simp [List.eraseP_cons, hp, List.find?_cons_of_neg, hq]
    | false =>
      cases hq : q a with
      | true => simp [List.eraseP_cons, hp, List.find?_cons_of_pos, hq]
      | false => simp [List.eraseP_cons, hp, List.find?_cons_of_neg, hq, ih]

theorem find?_insertStore {V : Type} (s : ValueStorage V) (nm k : String) (v : V) :
    (insertStore s nm v).find? (fun e => e.1 == k) =
      if k = nm then some (nm, v) else s.find? (fun e => e.1 == k) := by
  unfold insertStore
  rw [List.find?_append]
  by_cases hk : k = nm
  · subst hk
    have h1 : (s.filter fun e => e.1 != k).find? (fun e => e.1 == k) = none := by
      rw [List.find?_eq_none]
      intro x hx
      have hx2 := (List.mem_filter.mp hx).2
      simp only [bne_iff_ne, ne_eq] at hx2
      simp [hx2]
    rw [h1]
    simp [Option.or]
  · have h3 : (s.filter fun e => e.1 != nm).find? (fun e => e.1 == k) =
        s.find? (fun e => e.1 == k) := by
      refine find?_filter_of_imp (fun (e : String × V) => e.1 == k)
        (fun (e : String × V) => e.1 != nm) ?_ s
      intro x hx
      have hx1 : x.1 = k := by simpa using hx
      simp [hx1, hk]
    rw [h3]
    have h2 : (([(nm, v)] : ValueStorage V).find? fun e => e.1 == k) = none := by
      rw [List.find?_eq_none]
      intro x hx
      simp only [List.mem_singleton] at hx
      subst hx
      simp [Ne.symm hk]
    rw [h2]
    cases hf : s.find? (fun e => e.1 == k) <;> simp [hf, Option.or, hk]

theorem fillLoop_complete {V : Type} :
    ∀ (n : Nat) (it : List (NamedField V)) (s : ValueStorage V) (c : Nat),
      n ≤ it.length →
      fillLoop n it s c = (some (insertAll s (it.take n)), c + n, it.drop n) := by
  intro n
  induction n with
  | zero =>
    intro it s c _
    simp [fillLoop]
  | succ m ih =>
    intro it s c h
    cases it with
    | nil => simp at h
    | cons p rest =>
      have hm : m ≤ rest.length := by
        simpa using h
      simp only [fillLoop]
      rw [ih rest _ (c + 1) hm]
      simp only [List.take_succ_cons, List.drop_succ_cons, insertAll_cons, Prod.mk.injEq]
      exact ⟨trivial, by omega, trivial⟩

theorem fillLoop_short {V : Type} :
    ∀ (it : List (NamedField V)) (n : Nat) (s : ValueStorage V) (c : Nat),
      it.length < n →
      fillLoop n it s c = (none, c + it.length + 1, []) := by
  intro it
  induction it with
  | nil =>
    intro n s c h
    cases n with
    | zero => omega
    | succ m => simp [fillLoop]
  | cons p rest ih =>
    intro n s c h
    cases n with
    | zero => omega
    | succ m =>
      simp only [fillLoop]
      rw [ih m _ (c + 1) (by simpa using h)]
      simp only [List.length_cons, Prod.mk.injEq]
      exact ⟨trivial, by omega, trivial⟩

theorem buildFields_cons {V W : Type} (f : Field V W) (rest : List (Field V W))
    (store : ValueStorage V) :
    buildFields (f :: rest) store =
      match store.find? (fun e => e.1 == f.name) with
      | none => .error missingFieldMsg
      | some e =>
        match f.tryFrom e.2 with
        | none => .error conversionFailedMsg
        | some w =>
          match buildFields rest (store.eraseP (fun e => e.1 == f.name)) with
          | .ok ws => .ok ((f.name, w) :: ws)
          | .error m => .error m := by
  simp only [buildFields, removeStore]
  cases store.find? (fun e => e.1 == f.name) <;> rfl

theorem buildFields_error_msg {V W : Type} :
    ∀ (flds : List (Field V W)) (store : ValueStorage V) (m : String),
      buildFields flds store = .error m →
      m = missingFieldMsg ∨ m = conversionFailedMsg := by
  intro flds
  induction flds with
  | nil =>
    intro store m h
    simp [buildFields] at h
  | cons f rest ih =>
    intro store m h
    rw [buildFields_cons] at h
    split at h
    · injection h with h1
      exact Or.inl h1.symm
    · split at h
      · injection h with h1
        exact Or.inr h1.symm
      · split at h
        · cases h
        · next m' hrec =>
            injection h with h1
            exact h1 ▸ ih _ m' hrec

theorem buildFields_ok_mem {V W : Type} :
    ∀ (flds : List (Field V W)) (store : ValueStorage V) (ws : List (String × W)),
      buildFields flds store = .ok ws →
      ∀ f ∈ flds, ∃ v, (f.name, v) ∈ store ∧ (f.tryFrom v).isSome := by
  intro flds
  induction flds with
  | nil =>
    intro store ws _ f hf
    simp at hf
  | cons f rest ih =>
    intro store ws hok g hg
    rw [buildFields_cons] at hok
    split at hok
    · cases hok
    · next e hfind =>
        split at hok
        · cases hok
        · next w hconv =>
            split at hok
            · next ws' hrec =>
                have he1 : e.1 = f.name := by
                  have := List.find?_some hfind
                  simpa using this
                cases hg with
                | head =>
                  refine ⟨e.2, ?_, ?_⟩
                  · have hmem := List.mem_of_find?_eq_some hfind
                    rw [← he1]
                    exact hmem
                  · simp [hconv]
                | tail _ hg' =>
                  obtain ⟨v, hv, hsome⟩ := ih _ ws' hrec g hg'
                  exact ⟨v, (List.eraseP_sublist store).subset hv, hsome⟩
            · cases hok

theorem forall₂_imp_of_mem {α β : Type} {R S : α → β → Prop} :
    ∀ {l₁ : List α} {l₂ : List β},
      (∀ a ∈ l₁, ∀ b, R a b → S a b) → List.Forall₂ R l₁ l₂ → List.Forall₂ S l₁ l₂ := by
  intro l₁ l₂ h hf
  induction hf with
  | nil => exact .nil
  | cons hr _ ih =>
    exact .cons (h _ (List.mem_cons_self _ _) _ hr)
      (ih (fun a ha b hr' => h a (List.mem_cons_of_mem _ ha) b hr'))

theorem find?_eq_of_nodup_mem {V : Type} :
    ∀ (pairs : List (NamedField V)) (p : NamedField V) (k : String),
      (pairs.map NamedField.name).Nodup → p ∈ pairs → p.name = k →
      pairs.find? (fun x => x.name == k) = some p := by
  intro pairs
  induction pairs with
  | nil =>
    intro p k _ hp _
    simp at hp
  | cons a rest ih =>
    intro p k hnd hp hk
    rw [List.map_cons, List.nodup_cons] at hnd
    cases hp with
    | head =>
      exact List.find?_cons_of_pos _ (by simp [hk])
    | tail _ hp' =>
      have hne : a.name ≠ k := by
        intro hak
        exact hnd.1 (by
          rw [hak, ← hk]
          exact List.mem_map_of_mem NamedField.name hp')
      rw [List.find?_cons_of_neg _ (by simp [hne])]
      exact ih p k hnd.2 hp' hk

theorem mem_insertAll {V : Type} :
    ∀ (pairs : List (NamedField V)) (s : ValueStorage V) (k : String) (v : V),
      (k, v) ∈ insertAll s pairs →
      (k, v) ∈ s ∨ ∃ p ∈ pairs, p.name = k ∧ p.wrapped_value = v := by
  intro pairs
  induction pairs with
  | nil =>
    intro s k v h
    exact Or.inl h
  | cons p rest ih =>
    intro s k v h
    rw [insertAll_cons] at h
    rcases ih _ k v h with h1 | ⟨q, hq, hqk, hqv⟩
    · unfold insertStore at h1
      rcases List.mem_append.mp h1 with h2 | h2
      · exact Or.inl (List.mem_filter.mp h2).1
      · have h3 : (k, v) = (p.name, p.wrapped_value) := by simpa using h2
        have h4 := Prod.mk.injEq .. ▸ h3
        exact Or.inr ⟨p, List.mem_cons_self _ _, (congrArg Prod.fst h3).symm,
          (congrArg Prod.snd h3).symm⟩
    · exact Or.inr ⟨q, List.mem_cons_of_mem _ hq, hqk, hqv⟩

theorem insertAll_of_nodup {V : Type} :
    ∀ (pairs : List (NamedField V)) (s : ValueStorage V),
      (pairs.map NamedField.name).Nodup →
      (∀ e ∈ s, e.1 ∉ pairs.map NamedField.name) →
      insertAll s pairs = s ++ pairs.map (fun p => (p.name, p.wrapped_value)) := by
  intro pairs
  induction pairs with
  | nil =>
    intro s _ _
    simp
  | cons p rest ih =>
    intro s hnd hdisj
    rw [insertAll_cons]
    have hstep : insertStore s p.name p.wrapped_value = s ++ [(p.name, p.wrapped_value)] := by
      unfold insertStore
      congr 1
      rw [List.filter_eq_self]
      intro e he
      have hne : e.1 ≠ p.name := by
        intro hek
        exact hdisj e he (by rw [hek, List.map_cons]; exact List.mem_cons_self _ _)
      simpa using hne
    rw [hstep]
    rw [List.map_cons, List.nodup_cons] at hnd
    rw [ih (s ++ [(p.name, p.wrapped_value)]) hnd.2 ?_]
    · simp
    · intro e he hmem
      rcases List.mem_append.mp he with h1 | h1
      · exact hdisj e h1 (by rw [List.map_cons]; exact List.mem_cons_of_mem _ hmem)
      · have he1 : e.1 = p.name := by
          have h2 : e = (p.name, p.wrapped_value) := by simpa using h1
          rw [h2]
        exact hnd.1 (he1 ▸ hmem)

theorem buildFields_cons_eval {V W : Type} (f : Field V W) (rest : List (Field V W))
    (store : ValueStorage V) (v : V) (w : W) (ws : List (String × W))
    (hfind : store.find? (fun e => e.1 == f.name) = some (f.name, v))
    (hconv : f.tryFrom v = some w)
    (hrec : buildFields rest (store.eraseP (fun e => e.1 == f.name)) = .ok ws) :
    buildFields (f :: rest) store = .ok ((f.name, w) :: ws) := by
  rw [buildFields_cons, hfind]
  simp [hconv, hrec]

theorem buildFields_ok_of_found {V W : Type} :
    ∀ (flds : List (Field V W)) (store : ValueStorage V),
      (flds.map Field.name).Nodup →
      (∀ f ∈ flds, ∃ v w, store.find? (fun e => e.1 == f.name) = some (f.name, v) ∧
        f.tryFrom v = some w) →
      ∃ ws, buildFields flds store = .ok ws ∧
        List.Forall₂ (fun (f : Field V W) (nw : String × W) => nw.1 = f.name ∧
          ∃ v, store.find? (fun e => e.1 == f.name) = some (f.name, v) ∧
            f.tryFrom v = some nw.2) flds ws := by
  intro flds
  induction flds with
  | nil =>
    intro store _ _
    exact ⟨[], rfl, .nil⟩
  | cons f rest ih =>
    intro store hnd hfound
    obtain ⟨v, w, hfind, hconv⟩ := hfound f (List.mem_cons_self _ _)
    rw [List.map_cons, List.nodup_cons] at hnd
    have hstab : ∀ g : Field V W, g.name ∈ rest.map Field.name →
        (store.eraseP (fun e => e.1 == f.name)).find? (fun e => e.1 == g.name) =
          store.find? (fun e => e.1 == g.name) := by
      intro g hg
      refine find?_eraseP_of_excl _ _ ?_ store
      intro x hx
      have hx1 : x.1 = f.name := by simpa using hx
      have hgf : g.name ≠ f.name := fun h => hnd.1 (h ▸ hg)
      simp [hx1]
      exact fun hh => hgf hh.symm
    have hfound' : ∀ g ∈ rest, ∃ v w,
        (store.eraseP (fun e => e.1 == f.name)).find? (fun e => e.1 == g.name) =
          some (g.name, v) ∧ g.tryFrom v = some w := by
      intro g hg
      obtain ⟨v', w', hf', hc'⟩ := hfound g (List.mem_cons_of_mem _ hg)
      exact ⟨v', w', by rw [hstab g (List.mem_map_of_mem _ hg)]; exact hf', hc'⟩
    obtain ⟨ws', hbf, hfa⟩ := ih (store.eraseP (fun e => e.1 == f.name)) hnd.2 hfound'
    refine ⟨(f.name, w) :: ws', buildFields_cons_eval f rest store v w ws' hfind hconv hbf, ?_⟩
    refine List.Forall₂.cons ⟨rfl, v, hfind, hconv⟩ ?_
    refine forall₂_imp_of_mem ?_ hfa
    intro g hg nw hrel
    obtain ⟨h1, v', hf', hc'⟩ := hrel
    exact ⟨h1, v', (hstab g (List.mem_map_of_mem _ hg)) ▸ hf', hc'⟩

theorem specDirectAssign_of_forall₂ {V W : Type} :
    ∀ (flds : List (Field V W)) (pairs : List (NamedField V)) (ws : List (String × W)),
      List.Forall₂ (fun (f : Field V W) (nw : String × W) => nw.1 = f.name ∧
        ∃ p, pairs.find? (fun x => x.name == f.name) = some p ∧
          f.tryFrom p.wrapped_value = some nw.2) flds ws →
      specDirectAssign flds pairs = some ws := by
  intro flds pairs ws hfa
  induction hfa with
  | nil => rfl
  | cons hr htail ih =>
    obtain ⟨h1, p, hfind, hconv⟩ := hr
    rw [specDirectAssign, hfind]
    simp [hconv, ih]
    exact Prod.ext h1.symm rfl

theorem find?_perm_of_nodup {V : Type} (pairs1 pairs2 : List (NamedField V))
    (hperm : pairs1.Perm pairs2) (hnd1 : (pairs1.map NamedField.name).Nodup) (k : String) :
    pairs1.find? (fun x => x.name == k) = pairs2.find? (fun x => x.name == k) := by
  have hnd2 : (pairs2.map NamedField.name).Nodup := ((hperm.map _).nodup_iff).mp hnd1
  cases h1 : pairs1.find? (fun x => x.name == k) with
  | none =>
    have h2 : pairs2.find? (fun x => x.name == k) = none := by
      rw [List.find?_eq_none] at h1 ⊢
      intro x hx
      exact h1 x (hperm.mem_iff.mpr hx)
    exact h2.symm
  | some p =>
    have hp : p ∈ pairs1 := List.mem_of_find?_eq_some h1
    have hpk : p.name = k := by simpa using List.find?_some h1
    exact (find?_eq_of_nodup_mem pairs2 p k hnd2 (hperm.subset hp) hpk).symm

theorem buildFields_congr {V W : Type} :
    ∀ (flds : List (Field V W)) (s1 s2 : ValueStorage V),
      (flds.map Field.name).Nodup →
      (∀ f ∈ flds, s1.find? (fun e => e.1 == f.name) = s2.find? (fun e => e.1 == f.name)) →
      buildFields flds s1 = buildFields flds s2 := by
  intro flds
  induction flds with
  | nil =>
    intro s1 s2 _ _
    rfl
  | cons f rest ih =>
    intro s1 s2 hnd hfind
    rw [List.map_cons, List.nodup_cons] at hnd
    rw [buildFields_cons, buildFields_cons, hfind f (List.mem_cons_self _ _)]
    cases h2 : s2.find? (fun e => e.1 == f.name) with
    | none => simp only [h2]
    | some e =>
      simp only [h2]
      have hrec : buildFields rest (s1.eraseP (fun e => e.1 == f.name)) =
          buildFields rest (s2.eraseP (fun e => e.1 == f.name)) := by
        refine ih _ _ hnd.2 ?_
        intro g hg
        have hgf : g.name ≠ f.name := fun h => hnd.1 (h ▸ List.mem_map_of_mem _ hg)
        have e1 : (s1.eraseP (fun e => e.1 == f.name)).find? (fun e => e.1 == g.name) =
            s1.find? (fun e => e.1 == g.name) := by
          refine find?_eraseP_of_excl _ _ ?_ s1
          intro x hx
          have hx1 : x.1 = f.name := by simpa using hx
          simp [hx1]
          exact fun hh => hgf hh.symm
        have e2 : (s2.eraseP (fun e => e.1 == f.name)).find? (fun e => e.1 == g.name) =
            s2.find? (fun e => e.1 == g.name) := by
          refine find?_eraseP_of_excl _ _ ?_ s2
          intro x hx
          have hx1 : x.1 = f.name := by simpa using hx
          simp [hx1]
          exact fun hh => hgf hh.symm
        rw [e1, e2]
        exact hfind g (List.mem_cons_of_mem _ hg)
      cases h3 : f.tryFrom e.2 with
      | none => simp only [h3]
      | some w => simp only [h3, hrec]

theorem create_struct_short {V W : Type} (flds : List (Field V W)) (it : List (NamedField V))
    (h : it.length < flds.length) :
    create_struct flds it = .err insufficientDataMsg (it.length + 1) [] := by
  unfold create_struct
  rw [fillLoop_short it flds.length [] 0 h]
  simp

theorem create_struct_complete {V W : Type} (flds : List (Field V W))
    (it : List (NamedField V)) (h : flds.length ≤ it.length) :
    create_struct flds it =
      match buildFields flds (insertAll [] (it.take flds.length)) with
      | .ok ws => .ok ws flds.length (it.drop flds.length)
      | .error m => .panicked m flds.length (it.drop flds.length) := by
  unfold create_struct
  rw [fillLoop_complete flds.length it [] 0 h]
  cases hb : buildFields flds (insertAll [] (it.take flds.length)) <;> simp [hb]

theorem find?_eq_filter_head {α : Type} (p : α → Bool) :
    ∀ l : List α, l.find? p = (l.filter p).head? := by
  intro l
  induction l with
  | nil => rfl
  | cons a l ih =>
    cases hp : p a with
    | true =>
      rw [List.find?_cons_of_pos _ hp]
      simp [List.filter_cons, hp]
    | false =>
      rw [List.find?_cons_of_neg _ (by simp [hp]),
        List.filter_cons_of_neg (by simp [hp])]
      exact ih

theorem insertAll_find? {V : Type} :
    ∀ (pairs : List (NamedField V)) (s : ValueStorage V) (k : String),
      (insertAll s pairs).find? (fun e => e.1 == k) =
        match pairs.reverse.find? (fun x => x.name == k) with
        | some q => some (k, q.wrapped_value)
        | none => s.find? (fun e => e.1 == k) := by
  intro pairs
  induction pairs with
  | nil =>
    intro s k
    simp
  | cons p rest ih =>
    intro s k
    rw [insertAll_cons, ih (insertStore s p.name p.wrapped_value) k,
      List.reverse_cons, List.find?_append]
    cases hr : rest.reverse.find? (fun x => x.name == k) with
    | some q => simp
    | none =>
      simp only [Option.none_or]
      rw [find?_insertStore]
      cases hpk : (p.name == k) with
      | true =>
        have hk : p.name = k := by simpa using hpk
        simp only [List.find?, hpk, cond_true]
        rw [if_pos hk.symm, hk]
      | false =>
        have hk : ¬ p.name = k := by simpa using hpk
        simp only [List.find?, hpk, cond_false]
        rw [if_neg (fun h => hk h.symm)]

theorem not_nodup_of_filter_pair {V : Type} (pairs : List (NamedField V)) (nm : String)
    (p q : NamedField V) (hdup : pairs.filter (fun x => x.name == nm) = [p, q]) :
    ¬ (pairs.map NamedField.name).Nodup := by
  intro hnd
  have h1 : List.countP (fun x => x.name == nm) pairs = 2 := by
    rw [List.countP_eq_length_filter, hdup]
    rfl
  have h2 : List.count nm (pairs.map NamedField.name) = 2 := by
    rw [List.count_eq_countP, List.countP_map]
    exact h1
  have h3 := List.nodup_iff_count_le_one.mp hnd nm
  omega

theorem exists_missing_of_dup {V W : Type} (flds : List (Field V W))
    (pairs : List (NamedField V))
    (hnd : (flds.map Field.name).Nodup)
    (hlen : pairs.length = flds.length)
    (hdup : ¬ (pairs.map NamedField.name).Nodup) :
    ∃ f ∈ flds, ∀ p ∈ pairs, ¬ p.name = f.name := by
  by_contra hcon
  push_neg at hcon
  have hsub : (flds.map Field.name) ⊆ (pairs.map NamedField.name).dedup := by
    intro k hk
    rw [List.mem_dedup]
    obtain ⟨f, hf, hfk⟩ := List.mem_map.mp hk
    obtain ⟨p, hp, hpk⟩ := hcon f hf
    rw [← hfk, ← hpk]
    exact List.mem_map_of_mem _ hp
  have hle : flds.length ≤ (pairs.map NamedField.name).dedup.length := by
    have h1 : (flds.map Field.name).length ≤ (pairs.map NamedField.name).dedup.length :=
      (List.subperm_of_subset hnd hsub).length_le
    simpa using h1
  have hlt : (pairs.map NamedField.name).dedup.length < (pairs.map NamedField.name).length := by
    rcases Nat.lt_or_ge ((pairs.map NamedField.name).dedup.length)
        ((pairs.map NamedField.name).length) with h | h
    · exact h
    · exfalso
      have hsl := List.dedup_sublist (pairs.map NamedField.name)
      have hlen2 : (pairs.map NamedField.name).dedup.length =
          (pairs.map NamedField.name).length := Nat.le_antisymm hsl.length_le h
      have heq := hsl.eq_of_length hlen2
      exact hdup (heq ▸ List.nodup_dedup (pairs.map NamedField.name))
  have hplen : (pairs.map NamedField.name).length = pairs.length := by simp
  omega

/-! ## Claim theorems -/

/-- C9: for a struct with zero fields, the generated `create_struct` returns
`Ok` of the empty struct without ever calling `next()` on the input iterator,
even if the iterator is empty: the fill loop body never runs and the struct
literal has no field expressions. -/
theorem spec_C9_empty_struct (V W : Type) (it : List (NamedField V)) :
    create_struct ([] : List (Field V W)) it = .ok [] 0 it := rfl

/-- C2 counterexample: the claim fixes the error text, per the spec, as
"the given sequence should contain enough values to fill the implementing
structure", but on a one-field struct and an empty iterator the generated
`create_struct` returns an `Err` whose text is `insufficientDataMsg`, which
speaks of "The given iterator", not "the given sequence". -/
theorem spec_C2_counterexample :
    create_struct [(⟨"x", fun v => some v⟩ : Field Nat Nat)] ([] : List (NamedField Nat)) =
      .err insufficientDataMsg 1 [] ∧
    insufficientDataMsg ≠
      "the given sequence should contain enough values to fill the implementing structure" :=
  ⟨rfl, by decide⟩

/-- C2 (amended): for every struct and every iterator yielding fewer items
than the struct has fields, the generated `create_struct` stops at the first
exhausted pull (after `length + 1` calls of `next()`) and returns `Err` with
the static text "The given iterator should contain enough values to fill the
implementing structure", never producing a struct. -/
theorem spec_C2_insufficient_data {V W : Type} (flds : List (Field V W))
    (it : List (NamedField V)) (h : it.length < flds.length) :
    create_struct flds it = .err insufficientDataMsg (it.length + 1) [] := by
  unfold create_struct
  rw [fillLoop_short it flds.length [] 0 h]
  simp

/-- C2 witness: a two-field struct fed a one-item iterator returns the
insufficient-data error after two pulls. -/
theorem spec_C2_witness :
    create_struct
        [(⟨"x", fun v => some v⟩ : Field Nat Nat), ⟨"y", fun v => some v⟩]
        [⟨"x", 5⟩] =
      .err insufficientDataMsg 2 [] :=
  spec_C2_insufficient_data _ _ (by decide)

/-- C10: when the generated `create_struct` returns the insufficient-data
`Err` (iterator yields `k < N` items), it has called `next()` exactly `k + 1`
times and the iterator is left fully consumed. -/
theorem spec_C10_error_consumes_iterator {V W : Type} (flds : List (Field V W))
    (it : List (NamedField V)) (h : it.length < flds.length) :
    callsOf (create_struct flds it) = it.length + 1 ∧
      restOf (create_struct flds it) = [] := by
  unfold create_struct
  rw [fillLoop_short it flds.length [] 0 h]
  simp [callsOf, restOf]

/-- C10 witness: a three-field struct fed a one-item iterator makes two
`next()` calls and leaves the iterator empty. -/
theorem spec_C10_witness :
    callsOf (create_struct
        [(⟨"a", fun v => some v⟩ : Field Nat Nat), ⟨"b", fun v => some v⟩,
          ⟨"c", fun v => some v⟩]
        [⟨"a", 7⟩]) = 2 ∧
      restOf (create_struct
        [(⟨"a", fun v => some v⟩ : Field Nat Nat), ⟨"b", fun v => some v⟩,
          ⟨"c", fun v => some v⟩]
        [⟨"a", 7⟩]) = [] :=
  spec_C10_error_consumes_iterator _ _ (by decide)

/-- C5: for every struct with `N` fields and every iterator yielding at least
`N` items, the generated `create_struct` calls `next()` exactly `N` times and
the items beyond the first `N` are left in the iterator. -/
theorem spec_C5_pulls_exactly_n {V W : Type} (flds : List (Field V W))
    (it : List (NamedField V)) (h : flds.length ≤ it.length) :
    callsOf (create_struct flds it) = flds.length ∧
      restOf (create_struct flds it) = it.drop flds.length := by
  unfold create_struct
  rw [fillLoop_complete flds.length it [] 0 h]
  cases hb : buildFields flds (insertAll [] (it.take flds.length)) <;>
    simp [hb, callsOf, restOf]

/-- C5 witness: a one-field struct fed a two-item iterator pulls once and
leaves the second item. -/
theorem spec_C5_witness :
    callsOf (create_struct [(⟨"x", fun v => some v⟩ : Field Nat Nat)]
        [⟨"x", 1⟩, ⟨"y", 2⟩]) = 1 ∧
      restOf (create_struct [(⟨"x", fun v => some v⟩ : Field Nat Nat)]
        [⟨"x", 1⟩, ⟨"y", 2⟩]) = [⟨"y", 2⟩] :=
  spec_C5_pulls_exactly_n _ _ (by decide)

/-- C8: on every successful generation the emitted code is the original
struct definition unmodified followed by exactly one impl block implementing
`SpecifyCreatableStruct` for that struct, with `InnerIteratorType` set to the
directive argument and `Error` set to the static string-slice type. -/
theorem spec_C8_emitted_shape (ty nm : String) (flds : List SynField) :
    iter_convertable (some ty) (.structItem ⟨nm, .named flds⟩) =
      .emitted ⟨nm, .named flds⟩
        { traitName := "SpecifyCreatableStruct"
          structName := nm
          innerIteratorType := ty
          errorType := .staticStr
          errMsg := insufficientDataMsg
          fieldsLength := flds.length
          fieldValues := flds.map (field_maker ty) } := rfl

/-- C7 counterexample: the claim says every non-named-field-struct item is
rejected with a message stating that only named-field structs are supported,
but attaching the attribute to an enum panics with `attachMsg`, which speaks
only of struct definitions and is not the named-fields message. -/
theorem spec_C7_counterexample :
    iter_convertable (some "Item") (.enumItem "Wrapper") = .panicked attachMsg ∧
    attachMsg ≠ namedFieldsMsg :=
  ⟨rfl, by decide⟩

/-- C7 (amended): for every item that is not a struct definition with named
fields the generator panics at generation time and emits no code; the panic
message states that only named-field structs are supported when the item is a
struct (tuple or unit), and states that the attribute should only be attached
to a struct definition otherwise (enum, function, etc.). -/
theorem spec_C7_rejects_other_items (ty : String) (item : Item)
    (h : isNamedFieldStruct item = false) :
    (∀ s ib, iter_convertable (some ty) item ≠ .emitted s ib) ∧
    ((∃ s, item = .structItem s) → iter_convertable (some ty) item = .panicked namedFieldsMsg) ∧
    ((∀ s, item ≠ .structItem s) → iter_convertable (some ty) item = .panicked attachMsg) := by
  cases item with
  | structItem s =>
    cases s with
    | mk nm fs =>
      cases fs with
      | named l => simp [isNamedFieldStruct] at h
      | unnamed tys => exact ⟨by simp [iter_convertable], by simp [iter_convertable], by simp⟩
      | unit => exact ⟨by simp [iter_convertable], by simp [iter_convertable], by simp⟩
  | enumItem nm =>
    exact ⟨by simp [iter_convertable], by simp, by simp [iter_convertable]⟩
  | fnItem nm =>
    exact ⟨by simp [iter_convertable], by simp, by simp [iter_convertable]⟩
  | otherItem =>
    exact ⟨by simp [iter_convertable], by simp, by simp [iter_convertable]⟩

/-- C7 witness: attaching the attribute to a function item panics with the
struct-definition message. -/
theorem spec_C7_witness :
    iter_convertable (some "Wrapper") (Item.fnItem "main") = .panicked attachMsg :=
  (spec_C7_rejects_other_items "Wrapper" (Item.fnItem "main") rfl).2.2 (fun s => by simp)

/-- C1: for every named-field struct with `N` fields (names distinct, as the
host language guarantees) and every iterator whose first `N` items carry
exactly the struct's field names, each once, with values the corresponding
field conversions accept, the generated `create_struct` returns `Ok` of a
struct equal field-for-field to the one built by direct assignment of those
values keyed by field name (`specDirectAssign`); it makes exactly `N` pulls
and leaves the remaining items in the iterator. -/
theorem spec_C1_fills_correctly {V W : Type} (flds : List (Field V W))
    (it : List (NamedField V))
    (hnd : (flds.map Field.name).Nodup)
    (hperm : ((it.take flds.length).map NamedField.name).Perm (flds.map Field.name))
    (hconv : ∀ f ∈ flds, ∀ p ∈ it.take flds.length, p.name = f.name →
      (f.tryFrom p.wrapped_value).isSome) :
    ∃ ws, specDirectAssign flds (it.take flds.length) = some ws ∧
      create_struct flds it = .ok ws flds.length (it.drop flds.length) := by
  have hlenp : (it.take flds.length).length = flds.length := by
    simpa using hperm.length_eq
  have hitlen : flds.length ≤ it.length := by
    have h2 := List.length_take flds.length it
    rw [hlenp] at h2
    exact inf_eq_left.mp h2.symm
  have hndp : ((it.take flds.length).map NamedField.name).Nodup := hperm.nodup_iff.mpr hnd
  have hstore : insertAll [] (it.take flds.length) =
      (it.take flds.length).map (fun p => (p.name, p.wrapped_value)) := by
    have h3 := insertAll_of_nodup (it.take flds.length) [] hndp (by intro e he; simp at he)
    simpa using h3
  have hfindmap : ∀ k : String,
      ((it.take flds.length).map (fun p => (p.name, p.wrapped_value))).find?
          (fun e => e.1 == k) =
        ((it.take flds.length).find? (fun x => x.name == k)).map
          (fun p => (p.name, p.wrapped_value)) := by
    intro k
    rw [List.find?_map]
    rfl
  have hfound : ∀ f ∈ flds, ∃ v w,
      ((it.take flds.length).map (fun p => (p.name, p.wrapped_value))).find?
          (fun e => e.1 == f.name) = some (f.name, v) ∧ f.tryFrom v = some w := by
    intro f hf
    have hmemname : f.name ∈ (it.take flds.length).map NamedField.name :=
      hperm.mem_iff.mpr (List.mem_map_of_mem _ hf)
    obtain ⟨p, hp, hpname⟩ := List.mem_map.mp hmemname
    have hfindp : (it.take flds.length).find? (fun x => x.name == f.name) = some p :=
      find?_eq_of_nodup_mem (it.take flds.length) p f.name hndp hp hpname
    obtain ⟨w, hw⟩ := Option.isSome_iff_exists.mp (hconv f hf p hp hpname)
    refine ⟨p.wrapped_value, w, ?_, hw⟩
    rw [hfindmap f.name, hfindp]
    simp [hpname]
  obtain ⟨ws, hbf, hfa⟩ := buildFields_ok_of_found flds
    ((it.take flds.length).map (fun p => (p.name, p.wrapped_value))) hnd hfound
  have hspec : specDirectAssign flds (it.take flds.length) = some ws := by
    refine specDirectAssign_of_forall₂ flds (it.take flds.length) ws ?_
    refine forall₂_imp_of_mem ?_ hfa
    intro f hf nw hrel
    obtain ⟨h1, v, hfind, hc⟩ := hrel
    rw [hfindmap f.name] at hfind
    obtain ⟨p, hp1, hp2⟩ := Option.map_eq_some'.mp hfind
    have hpv : p.wrapped_value = v := congrArg Prod.snd hp2
    exact ⟨h1, p, hp1, by rw [hpv]; exact hc⟩
  refine ⟨ws, hspec, ?_⟩
  unfold create_struct
  rw [fillLoop_complete flds.length it [] 0 hitlen, hstore]
  simp only [hbf, Nat.zero_add]

/-- C1 witness: a two-field struct `x, y` fed `[(y,2), (x,1), (z,9)]` is
built by direct assignment from the first two items, leaving the third. -/
theorem spec_C1_witness :
    ∃ ws, specDirectAssign
        [(⟨"x", fun v => some v⟩ : Field Nat Nat), ⟨"y", fun v => some (v + 1)⟩]
        (List.take 2 [⟨"y", 2⟩, ⟨"x", 1⟩, ⟨"z", 9⟩]) = some ws ∧
      create_struct
        [(⟨"x", fun v => some v⟩ : Field Nat Nat), ⟨"y", fun v => some (v + 1)⟩]
        [⟨"y", 2⟩, ⟨"x", 1⟩, ⟨"z", 9⟩] = .ok ws 2 [⟨"z", 9⟩] :=
  spec_C1_fills_correctly _ _ (by decide) (by decide) (by decide)

/-- C6: for every struct with `N` distinct-named fields and every set of `N`
name/value pairs with distinct names matching the struct's field names,
feeding any permutation of those pairs to the generated `create_struct`
yields the identical result: the outcome is order-independent. -/
theorem spec_C6_order_invariant {V W : Type} (flds : List (Field V W))
    (pairs1 pairs2 : List (NamedField V))
    (hnd : (flds.map Field.name).Nodup)
    (hnames : (pairs1.map NamedField.name).Perm (flds.map Field.name))
    (hperm : pairs1.Perm pairs2) :
    create_struct flds pairs1 = create_struct flds pairs2 := by
  have hnd1 : (pairs1.map NamedField.name).Nodup := hnames.nodup_iff.mpr hnd
  have hnd2 : (pairs2.map NamedField.name).Nodup := ((hperm.map _).nodup_iff).mp hnd1
  have hlen1 : pairs1.length = flds.length := by simpa using hnames.length_eq
  have hlen2 : pairs2.length = flds.length := by rw [← hperm.length_eq]; exact hlen1
  have htake1 : pairs1.take flds.length = pairs1 := List.take_of_length_le (le_of_eq hlen1)
  have htake2 : pairs2.take flds.length = pairs2 := List.take_of_length_le (le_of_eq hlen2)
  have hdrop1 : pairs1.drop flds.length = [] := List.drop_eq_nil_of_le (le_of_eq hlen1)
  have hdrop2 : pairs2.drop flds.length = [] := List.drop_eq_nil_of_le (le_of_eq hlen2)
  have hbeq : buildFields flds (insertAll [] pairs1) =
      buildFields flds (insertAll [] pairs2) := by
    rw [insertAll_of_nodup pairs1 [] hnd1 (by intro e he; simp at he),
        insertAll_of_nodup pairs2 [] hnd2 (by intro e he; simp at he)]
    simp only [List.nil_append]
    refine buildFields_congr flds _ _ hnd ?_
    intro f hf
    rw [List.find?_map, List.find?_map]
    have hcomp : pairs1.find? ((fun (e : String × V) => e.1 == f.name) ∘
        (fun p => (p.name, p.wrapped_value))) =
        pairs2.find? ((fun (e : String × V) => e.1 == f.name) ∘
        (fun p => (p.name, p.wrapped_value))) :=
      find?_perm_of_nodup pairs1 pairs2 hperm hnd1 f.name
    rw [hcomp]
  unfold create_struct
  rw [fillLoop_complete flds.length pairs1 [] 0 (le_of_eq hlen1.symm),
      fillLoop_complete flds.length pairs2 [] 0 (le_of_eq hlen2.symm),
      htake1, htake2, hdrop1, hdrop2]
  simp only [hbeq]

/-- C6 witness: swapping the two items fed to a two-field struct gives the
identical result. -/
theorem spec_C6_witness :
    create_struct
        [(⟨"x", fun v => some v⟩ : Field Nat Nat), ⟨"y", fun v => some (v + 1)⟩]
        [⟨"x", 1⟩, ⟨"y", 2⟩] =
      create_struct
        [(⟨"x", fun v => some v⟩ : Field Nat Nat), ⟨"y", fun v => some (v + 1)⟩]
        [⟨"y", 2⟩, ⟨"x", 1⟩] :=
  spec_C6_order_invariant _ _ _ (by decide) (by decide) (by decide)

/-- C4: the generated `create_struct` reports `Err` only for the
insufficient-data case (with its fixed message, and only when the iterator is
too short); every panic message is one of the two fault messages (missing
field name, failed conversion); a field name absent from the first `N` pulled
pairs forces a panic, not an `Err`; and a failed `TryFrom` conversion for a
field's pulled value likewise forces a panic, not an `Err`. -/
theorem spec_C4_error_channels {V W : Type} (flds : List (Field V W))
    (it : List (NamedField V)) :
    (∀ m c r, create_struct flds it = .err m c r →
      m = insufficientDataMsg ∧ it.length < flds.length) ∧
    (∀ m c r, create_struct flds it = .panicked m c r →
      m = missingFieldMsg ∨ m = conversionFailedMsg) ∧
    (flds.length ≤ it.length →
      (∃ f ∈ flds, ∀ p ∈ it.take flds.length, ¬ p.name = f.name) →
      ∃ m c r, create_struct flds it = .panicked m c r) ∧
    (((it.take flds.length).map NamedField.name).Nodup →
      flds.length ≤ it.length →
      (∃ f ∈ flds, ∃ p ∈ it.take flds.length, p.name = f.name ∧
        f.tryFrom p.wrapped_value = none) →
      ∃ m c r, create_struct flds it = .panicked m c r) := by
  refine ⟨?_, ?_, ?_, ?_⟩
  · intro m c r h
    rcases Nat.lt_or_ge it.length flds.length with hlt | hge
    · rw [create_struct_short flds it hlt] at h
      injection h with h1 h2 h3
      exact ⟨h1.symm, hlt⟩
    · rw [create_struct_complete flds it hge] at h
      split at h <;> cases h
  · intro m c r h
    rcases Nat.lt_or_ge it.length flds.length with hlt | hge
    · rw [create_struct_short flds it hlt] at h
      cases h
    · rw [create_struct_complete flds it hge] at h
      split at h
      · cases h
      · next m' hb =>
          injection h with h1 h2 h3
          exact h1 ▸ buildFields_error_msg flds _ m' hb
  · rintro hge ⟨f, hf, hnone⟩
    rw [create_struct_complete flds it hge]
    cases hb : buildFields flds (insertAll [] (it.take flds.length)) with
    | error m =>
      refine ⟨m, flds.length, it.drop flds.length, ?_⟩
      simp only [hb]
    | ok ws =>
      exfalso
      obtain ⟨v, hv, hsome⟩ := buildFields_ok_mem flds _ ws hb f hf
      rcases mem_insertAll _ [] f.name v hv with h0 | ⟨q, hq, hqn, hqv⟩
      · simp at h0
      · exact hnone q hq hqn
  · rintro hndp hge ⟨f, hf, p, hp, hpn, hfail⟩
    rw [create_struct_complete flds it hge]
    cases hb : buildFields flds (insertAll [] (it.take flds.length)) with
    | error m =>
      refine ⟨m, flds.length, it.drop flds.length, ?_⟩
      simp only [hb]
    | ok ws =>
      exfalso
      obtain ⟨v, hv, hsome⟩ := buildFields_ok_mem flds _ ws hb f hf
      rcases mem_insertAll _ [] f.name v hv with h0 | ⟨q, hq, hqn, hqv⟩
      · simp at h0
      · have hqp : q = p := List.inj_on_of_nodup_map hndp hq hp (by rw [hqn, hpn])
        rw [hqp] at hqv
        rw [hqv] at hfail
        rw [hfail] at hsome
        simp at hsome

/-- C4 witness: a one-field struct `a` fed a pair named `b` panics instead of
returning an `Err`. -/
theorem spec_C4_witness :
    ∃ m c r, create_struct [(⟨"a", fun v => some v⟩ : Field Nat Nat)] [⟨"b", 5⟩] =
      .panicked m c r :=
  (spec_C4_error_channels _ _).2.2.1 (by decide)
    ⟨⟨"a", fun v => some v⟩, List.mem_cons_self _ _, by decide⟩

/-- C3 counterexample: the claim says that after a duplicate name among the
first `N` pulls the final constructed struct assigns the later value, but on
the two-field struct `a, b` fed `[(a,1), (a,2)]` no struct is constructed at
all: `create_struct` panics with the missing-field message because `b` is
absent from the store. -/
theorem spec_C3_counterexample :
    create_struct
        [(⟨"a", fun v => some v⟩ : Field Nat Nat), ⟨"b", fun v => some v⟩]
        [⟨"a", 1⟩, ⟨"a", 2⟩] = .panicked missingFieldMsg 2 [] ∧
    isOk (create_struct
        [(⟨"a", fun v => some v⟩ : Field Nat Nat), ⟨"b", fun v => some v⟩]
        [⟨"a", 1⟩, ⟨"a", 2⟩]) = false :=
  ⟨rfl, rfl⟩

/-- C3 (amended): if the first `N` pulled pairs contain exactly two entries
with the same name, the internal store keeps the later value (last-write-wins
on insert), but no struct is constructed: by counting, some field name is
then absent from the store, so `create_struct` panics (after the full `N`
pulls) instead of returning a struct — with one of the two fault messages:
the missing-field message, or the conversion-failure message if some earlier
field's conversion fails first. -/
theorem spec_C3_duplicate_name {V W : Type} (flds : List (Field V W))
    (it : List (NamedField V)) (nm : String) (p q : NamedField V)
    (hnd : (flds.map Field.name).Nodup)
    (hlen : flds.length ≤ it.length)
    (hdup : (it.take flds.length).filter (fun x => x.name == nm) = [p, q]) :
    (insertAll [] (it.take flds.length)).find? (fun e => e.1 == nm) =
      some (nm, q.wrapped_value) ∧
    isOk (create_struct flds it) = false ∧
    ∃ m, create_struct flds it = .panicked m flds.length (it.drop flds.length) ∧
      (m = missingFieldMsg ∨ m = conversionFailedMsg) := by
  have htlen : (it.take flds.length).length = flds.length := by
    rw [List.length_take]
    exact inf_eq_left.mpr hlen
  have hlww : (insertAll [] (it.take flds.length)).find? (fun e => e.1 == nm) =
      some (nm, q.wrapped_value) := by
    rw [insertAll_find? (it.take flds.length) [] nm]
    have hrev : (it.take flds.length).reverse.find? (fun x => x.name == nm) = some q := by
      rw [find?_eq_filter_head, List.filter_reverse, hdup]
      rfl
    rw [hrev]
  refine ⟨hlww, ?_, ?_⟩
  all_goals
    have hmiss : ∃ f ∈ flds, ∀ x ∈ it.take flds.length, ¬ x.name = f.name :=
      exists_missing_of_dup flds (it.take flds.length) hnd htlen
        (not_nodup_of_filter_pair _ nm p q hdup)
    have hnotok : ∀ ws, ¬ buildFields flds (insertAll [] (it.take flds.length)) = .ok ws := by
      intro ws hb
      obtain ⟨f, hf, hnone⟩ := hmiss
      obtain ⟨v, hv, _⟩ := buildFields_ok_mem flds _ ws hb f hf
      rcases mem_insertAll _ [] f.name v hv with h0 | ⟨x, hx, hxn, _⟩
      · simp at h0
      · exact hnone x hx hxn
    rw [create_struct_complete flds it hlen]
  · cases hb : buildFields flds (insertAll [] (it.take flds.length)) with
    | ok ws => exact absurd hb (hnotok ws)
    | error m => simp [hb, isOk]
  · cases hb : buildFields flds (insertAll [] (it.take flds.length)) with
    | ok ws => exact absurd hb (hnotok ws)
    | error m => exact ⟨m, by simp only [hb], buildFields_error_msg flds _ m hb⟩

/-- C3 witness: on the two-field struct `a, b` fed `[(a,1), (a,2)]`, the
store maps `a` to the later value `2`, no struct is constructed, and the call
panics after both pulls. -/
theorem spec_C3_witness :
    (insertAll [] (List.take 2 [(⟨"a", 1⟩ : NamedField Nat), ⟨"a", 2⟩])).find?
        (fun e => e.1 == "a") = some ("a", 2) ∧
    isOk (create_struct
        [(⟨"a", fun v => some v⟩ : Field Nat Nat), ⟨"b", fun v => some v⟩]
        [⟨"a", 1⟩, ⟨"a", 2⟩]) = false ∧
    ∃ m, create_struct
        [(⟨"a", fun v => some v⟩ : Field Nat Nat), ⟨"b", fun v => some v⟩]
        [⟨"a", 1⟩, ⟨"a", 2⟩] =
      .panicked m 2 (List.drop 2 [(⟨"a", 1⟩ : NamedField Nat), ⟨"a", 2⟩]) ∧
      (m = missingFieldMsg ∨ m = conversionFailedMsg) :=
  spec_C3_duplicate_name
    [(⟨"a", fun v => some v⟩ : Field Nat Nat), ⟨"b", fun v => some v⟩]
    [⟨"a", 1⟩, ⟨"a", 2⟩] "a" ⟨"a", 1⟩ ⟨"a", 2⟩ (by decide) (by decide) (by decide)

end Structinator
